import Mathlib

/-!
Verification of the sentence-matching model core
(`sentmatching/model/sent_matching_model.py`): layer-stack assembly,
padding-aware pooling, the pairwise score head, cost/regularization,
checkpoint save/load path handling, and the training loop with early
stopping and the NaN guard.

Shallow embedding conventions: machine floats are idealized as exact
rationals (`ℚ`) except where a transcendental function (`exp`, `sqrt`)
forces real numbers (`ℝ`); a float that may be NaN is modelled by the
two-constructor type `Flt`.  Python code that raises (a `TypeError`,
`AssertionError`, `NameError`, or the `exit()` call) is modelled by an
`Option`/sum-type outcome.  Externally supplied collaborators (the
compiled per-sample step function, per-epoch shuffled index order, the
dev-accuracy evaluation) enter the training-loop model as oracles.
-/

namespace SentMatching

/-- The slice of the run configuration (`args`) read by the model core:
`activation`, `hidden_dim`, `layer`, `depth`, `order`, `mode`, `outgate`,
`average`, `normalize`, `l2_reg`. -/
structure Args where
  activation : String
  hidden_dim : Nat
  layer : String
  depth : Nat
  order : Nat
  mode : String
  outgate : Bool
  average : Bool
  normalize : Bool
  l2_reg : ℚ

/-- A concrete configuration with the unrecognized layer name "Foo"
(fields: activation, hidden_dim, layer, depth, order, mode, outgate,
average, normalize, l2_reg). -/
def argsFoo : Args := ⟨"tanh", 4, "Foo", 2, 1, "plain", true, false, false, 0⟩

/-- A concrete configuration with `layer = "CNN"` (upper case) and
`average = false`. -/
def argsCNNupper : Args := ⟨"tanh", 1, "CNN", 1, 1, "plain", true, false, false, 0⟩

/-- The same configuration with `layer = "cnn"` (lower case). -/
def argsCNNlower : Args := ⟨"tanh", 1, "cnn", 1, 1, "plain", true, false, false, 0⟩

/-- The six encoder layer kinds selectable through `args.layer`. -/
inductive LayerType where
  | LSTM | GRU | GRNN | CNN | StrCNN | RCNN
deriving DecidableEq

/-- A constructed feature layer, recording with which constructor and
arguments it was built in `_set_layers` (layer internals are external). -/
inductive LayerSpec where
  | mkLSTM (n_in n_out : Nat) (activation : String)
  | mkGRU (n_in n_out : Nat) (activation : String)
  | mkGRNN (n_in n_out : Nat) (activation : String)
  | mkCNN (n_in n_out : Nat) (activation : String) (order : Nat)
  | mkStrCNN (n_in n_out : Nat) (activation : String) (order : Nat)
  | mkRCNN (n_in n_out : Nat) (activation : String) (order : Nat)
      (mode : String) (has_outgate : Bool)
deriving DecidableEq

/-- Python's `str.lower()`: lower-case every character. -/
def pyLower (s : String) : String :=
  ⟨s.data.map Char.toLower⟩

/-- The `if args.layer.lower() == ...` chain of `_set_layers`: the layer
name is lower-cased before comparison, and an unrecognized name falls
through to `RCNN`. -/
def layer_type_of (layer : String) : LayerType :=
  if pyLower layer = "lstm" then LayerType.LSTM
  else if pyLower layer = "gru" then LayerType.GRU
  else if pyLower layer = "grnn" then LayerType.GRNN
  else if pyLower layer = "cnn" then LayerType.CNN
  else if pyLower layer = "str_cnn" then LayerType.StrCNN
  else LayerType.RCNN

/-- Construction of one feature layer in `_set_layers`: CNN/StrCNN take
`order`, the RCNN fallback takes `order`, `mode`, `has_outgate`, the
remaining recurrent kinds take only `(n_in, n_out, activation)`. -/
def build_feature_layer (lt : LayerType) (n_in n_out : Nat)
    (activation : String) (order : Nat) (mode : String) (outgate : Bool) :
    LayerSpec :=
  match lt with
  | LayerType.CNN => LayerSpec.mkCNN n_in n_out activation order
  | LayerType.StrCNN => LayerSpec.mkStrCNN n_in n_out activation order
  | LayerType.LSTM => LayerSpec.mkLSTM n_in n_out activation
  | LayerType.GRU => LayerSpec.mkGRU n_in n_out activation
  | LayerType.GRNN => LayerSpec.mkGRNN n_in n_out activation
  | LayerType.RCNN =>
      LayerSpec.mkRCNN n_in n_out activation order mode outgate

/-- `BaseModel._set_layers`: build `args.depth` layers; layer 0 takes the
embedding width `n_e` as input, all later layers take `n_d`. -/
def set_layers (args : Args) (n_d n_e : Nat) : List LayerSpec :=
  (List.range args.depth).map fun i =>
    build_feature_layer (layer_type_of args.layer)
      (if i = 0 then n_e else n_d) n_d args.activation
      args.order args.mode args.outgate

/-! ## Padding-aware pooling (`_mid_layer`) -/

/-- The `eps=1e-8` guard of `average_without_padding`. -/
def avgEps : ℚ := 1 / 100000000

/-- Number of non-pad positions of sentence `s` in the token-id matrix
`x` (1D: n_words, 2D: n_sents), as a rational (the mask sum). -/
def nonPadCount (x : List (List Nat)) (pad_id : Nat) (s : Nat) : ℚ :=
  ((x.map fun row => row.getD s pad_id).filter fun t => t ≠ pad_id).length

/-- Masked sum over word positions of feature `d` of sentence `s` of the
encoded sequence `h` (1D: n_words, 2D: n_sents, 3D: n_d). -/
def maskedSumAt (h : List (List (List ℚ))) (x : List (List Nat))
    (pad_id : Nat) (s d : Nat) : ℚ :=
  ((List.zip h x).map fun wp =>
    if wp.2.getD s pad_id ≠ pad_id then (wp.1.getD s []).getD d 0 else 0).sum

/-- Modelled from the spec: `average_without_padding` (from
`sentmatching/nn/nn_utils.py`, which is not among the provided sources) —
"a position contributes to the mean only if its token id ≠ pad id;
denominator is the per-sequence non-pad count (guarded against zero with
a small epsilon)".  Input `h` is (n_words, n_sents, n_d), `x` is
(n_words, n_sents); output is (n_sents, n_d). -/
def average_without_padding (h : List (List (List ℚ)))
    (x : List (List Nat)) (pad_id : Nat) : List (List ℚ) :=
  (List.range (h.getD 0 []).length).map fun s =>
    (List.range ((h.getD 0 []).getD 0 []).length).map fun d =>
      maskedSumAt h x pad_id s d / (nonPadCount x pad_id s + avgEps)

/-- The pooling stage of `BaseModel._mid_layer`:
`if args.average or args.layer == "cnn" or args.layer == "str_cnn"` the
mean over non-pad positions, `else h[-1]` (the last time-step).  Note the
comparison here is on the raw `args.layer` string, with no `.lower()`. -/
def pool_h (args : Args) (h : List (List (List ℚ)))
    (x : List (List Nat)) (pad_id : Nat) : List (List ℚ) :=
  if args.average || (args.layer == "cnn") || (args.layer == "str_cnn")
  then average_without_padding h x pad_id
  else h.getLastD []

/-! ## Score head (`_output_layer`) and prediction -/

/-- Elementwise product followed by `T.sum(..., axis=1)`: the dot product
of two pooled sentence rows. -/
def dotSum (a b : List ℚ) : ℚ :=
  (List.zipWith (fun p q => p * q) a b).sum

/-- `sent_1 = h[v * 2, :]` of `_output_layer`: row `i * 2` of the pooled
representation. -/
def sent1row (h : List (List ℚ)) (i : Nat) : List ℚ :=
  h.getD (i * 2) []

/-- `sent_2 = h[(v + 1) * 2 - 1, :]` of `_output_layer`: row
`(i + 1) * 2 - 1` of the pooled representation. -/
def sent2row (h : List (List ℚ)) (i : Nat) : List ℚ :=
  h.getD ((i + 1) * 2 - 1) []

/-- The pre-sigmoid pair score `T.sum(sent_1 * sent_2, axis=1)` at pair
index `i`. -/
def scorePre (h : List (List ℚ)) (i : Nat) : ℚ :=
  dotSum (sent1row h i) (sent2row h i)

/-- The logistic sigmoid `T.nnet.sigmoid`. -/
noncomputable def sigmoid (x : ℝ) : ℝ :=
  1 / (1 + Real.exp (-x))

/-- `_output_layer`: the score of pair `i` is the sigmoid of the dot
product of rows `i * 2` and `(i + 1) * 2 - 1`. -/
noncomputable def y_scores (h : List (List ℚ)) (i : Nat) : ℝ :=
  sigmoid ((scorePre h i : ℚ) : ℝ)

/-- `self.y_pred = T.le(0.5, y_scores)`: pair `i` is predicted a match
when `0.5 ≤ score`. -/
def y_pred (h : List (List ℚ)) (i : Nat) : Prop :=
  (1 / 2 : ℝ) ≤ y_scores h i

/-- Exchange the two sentence rows of pair `i` (rows `i * 2` and
`(i + 1) * 2 - 1`) of a pooled representation. -/
def swapPairRows (h : List (List ℚ)) (i : Nat) : List (List ℚ) :=
  (h.set (i * 2) (sent2row h i)).set ((i + 1) * 2 - 1) (sent1row h i)

/-! ## Cost (`Model.set_cost`) -/

/-- The L2 norm `p.norm(2)` of one parameter tensor, flattened to a list
of scalars: the square root of the sum of squares (not the squared
norm). -/
noncomputable def pnorm2 (p : List ℝ) : ℝ :=
  Real.sqrt ((p.map fun a => a ^ 2).sum)

/-- One iteration of the `set_cost` loop: `if l2_reg is None: l2_reg =
p.norm(2) else: l2_reg += p.norm(2)`. -/
noncomputable def normAcc (acc : Option ℝ) (p : List ℝ) : Option ℝ :=
  match acc with
  | none => some (pnorm2 p)
  | some s => some (s + pnorm2 p)

/-- `Model.set_cost`: accumulate `p.norm(2)` over the parameter list into
a variable initialized to `None`, then return
`loss + l2_reg_acc * args.l2_reg`.  With an empty parameter list the
accumulator is still `None` at the final expression, which in Python
raises a `TypeError` (`None * float`); that is the `none` outcome. -/
noncomputable def set_cost (args : Args) (params : List (List ℝ))
    (loss : ℝ) : Option ℝ :=
  match params.foldl normAcc none with
  | none => none
  | some s => some (loss + s * (args.l2_reg : ℝ))

/-! ## Checkpoint path normalization (`Model.save_model`) -/

/-- The canonical compound suffix `".pkl.gz"`, as a character list. -/
def dotPklGz : List Char := ".pkl.gz".data

/-- The suffix `".pkl"`. -/
def dotPkl : List Char := ".pkl".data

/-- The suffix `".gz"`. -/
def dotGz : List Char := ".gz".data

/-- The path normalization at the top of `Model.save_model`:
`if not path.endswith(".pkl.gz"): path += ".gz" if path.endswith(".pkl")
else ".pkl.gz"`. -/
def save_model_path (path : List Char) : List Char :=
  if dotPklGz.isSuffixOf path then path
  else if dotPkl.isSuffixOf path then path ++ dotGz
  else path ++ dotPklGz

/-! ## Checkpoint loading (`Model.load_pretrained_parameters`) -/

/-- A layer as seen by checkpoint loading: a stand-in name (never
consulted by loading) and its parameter snapshot. -/
structure SMLayer (P : Type) where
  name : String
  params : P
deriving DecidableEq

/-- The persisted checkpoint record `{args, d, params}`. -/
structure Checkpoint (A P : Type) where
  args : A
  d : Nat
  params : List P

/-- `Model.load_pretrained_parameters`: `assert args.hidden_dim ==
data["d"]` (the `none` outcome models the `AssertionError`, raised before
any layer is touched), then `for l, p in zip(self.layers,
data["params"]): l.params = p` — a positional overwrite of the first
`min` layers; layers beyond the checkpoint's parameter list keep their
old parameters. -/
def load_pretrained_parameters {A P : Type} (hidden_dim : Nat)
    (layers : List (SMLayer P)) (ck : Checkpoint A P) :
    Option (List (SMLayer P)) :=
  if hidden_dim = ck.d then
    some (List.zipWith (fun l p => { l with params := p }) layers ck.params
      ++ layers.drop ck.params.length)
  else
    none

/-- A concrete three-layer stack (names only label the layers; loading
never reads them). -/
def layersEx : List (SMLayer (List ℚ)) := [⟨"a", [1]⟩, ⟨"b", [2]⟩, ⟨"c", [3]⟩]

/-- A concrete checkpoint with `d = 4` and two parameter snapshots. -/
def ckptEx : Checkpoint Unit (List ℚ) := ⟨(), 4, [[9], [8]]⟩

/-- A default layer for out-of-range reads in statements. -/
def dlEx : SMLayer (List ℚ) := ⟨"z", []⟩

/-! ## Training loop (`Model.train`)

The compiled per-sample step function is an oracle `losses : Nat → Nat →
Flt` giving the loss the step returns at (epoch, sample id); the
shuffled index order of each epoch is an oracle `order : Nat → List
Nat`; the dev-accuracy evaluation is an oracle `Nat → ℚ` (accuracy per
epoch).  Metric accumulation and progress printing are abstracted; the
control flow (stagnation counter, NaN guard, the conditional binding of
`dev_acc`) is modelled exactly. -/

/-- A training-step loss value: a float that is either NaN or a number. -/
inductive Flt where
  | nan : Flt
  | num : ℚ → Flt
deriving DecidableEq

/-- The diagnostic `'\n\nNAN: Index: %d\n' % i` printed before `exit()`. -/
def nanMessage (i : Nat) : String :=
  "\n\nNAN: Index: " ++ toString i ++ "\n"

/-- How one epoch terminates. -/
inductive TrainOutcome where
  | finished (epochsTrained : Nat)
  | nanAbort (epoch : Nat) (sampleIdx : Nat) (msg : String)
  | nameError (epoch : Nat)
deriving DecidableEq

/-- The inner loop `for i, index in enumerate(batch_indices)`: invoke the
step on each sample in order; on the first NaN loss, stop.  Returns the
list of loop counters `i` whose step was invoked, and `some i` when the
NaN guard fired at counter `i`. -/
def runSteps (loss : Nat → Flt) : List Nat → Nat → List Nat × Option Nat
  | [], _ => ([], none)
  | idx :: rest, i =>
      match loss idx with
      | Flt.nan => ([i], some i)
      | Flt.num _ =>
          let r := runSteps loss rest (i + 1)
          (i :: r.1, r.2)

/-- The value of the local variable `dev_acc` after the conditional
`if dev_samples is not None: dev_acc = self.evaluate(...)`: assigned when
dev samples are supplied, otherwise whatever it was before (unbound =
`none` on the first epoch). -/
def devAccAfter (devSamples : Option (Nat → ℚ)) (epoch : Nat)
    (devAccVar : Option ℚ) : Option ℚ :=
  match devSamples with
  | some f => some (f epoch)
  | none => devAccVar

/-- The epoch loop of `Model.train`, by recursion on the remaining epoch
count.  Arguments after the oracles: remaining epochs, current epoch,
`unchanged`, `best_acc`, the `dev_acc` variable binding. -/
def trainAux (losses : Nat → Nat → Flt) (order : Nat → List Nat)
    (devSamples : Option (Nat → ℚ)) :
    Nat → Nat → Nat → ℚ → Option ℚ → TrainOutcome
  | 0, epoch, _, _, _ => TrainOutcome.finished epoch
  | remaining + 1, epoch, unchanged, best_acc, devAccVar =>
    if 15 < unchanged + 1 then TrainOutcome.finished epoch
    else
      match (runSteps (losses epoch) (order epoch) 0).2 with
      | some i => TrainOutcome.nanAbort epoch i (nanMessage i)
      | none =>
        match devAccAfter devSamples epoch devAccVar with
        | none => TrainOutcome.nameError epoch
        | some dev_acc =>
          if best_acc < dev_acc then
            trainAux losses order devSamples remaining (epoch + 1)
              0 dev_acc (some dev_acc)
          else
            trainAux losses order devSamples remaining (epoch + 1)
              (unchanged + 1) best_acc (some dev_acc)

/-- `Model.train`: `unchanged = 0`, `best_acc = -1`, then the epoch loop
`for epoch in xrange(max_epoch)`. -/
def train (max_epoch : Nat) (losses : Nat → Nat → Flt)
    (order : Nat → List Nat) (devSamples : Option (Nat → ℚ)) :
    TrainOutcome :=
  trainAux losses order devSamples max_epoch 0 0 (-1) none

/-! ## Layer-stack assembly: the RCNN fallback (C9) -/

/-- Reading position `i < n` of a list built by mapping over
`List.range n`. -/
theorem getD_map_range {α : Type} (f : Nat → α) (n i : Nat) (d : α)
    (hi : i < n) : ((List.range n).map f).getD i d = f i := by
  rw [List.getD_eq_getElem?_getD, List.getElem?_map, List.getElem?_range hi]
  rfl

/-- C9: for every configuration whose layer name, lower-cased, is none of
"lstm", "gru", "grnn", "cnn", "str_cnn", layer construction does not
fail: the stack has exactly `depth` layers and every one of them is an
RCNN built with the configured order, mode and outgate options (layer 0
with input width `n_e`, the rest with `n_d`). -/
theorem set_layers_rcnn_fallback (args : Args) (n_d n_e : Nat)
    (h : pyLower args.layer ∉
      (["lstm", "gru", "grnn", "cnn", "str_cnn"] : List String)) :
    (set_layers args n_d n_e).length = args.depth ∧
    ∀ i, i < args.depth →
      (set_layers args n_d n_e).getD i (LayerSpec.mkLSTM 0 0 "") =
        LayerSpec.mkRCNN (if i = 0 then n_e else n_d) n_d
          args.activation args.order args.mode args.outgate := by
  simp only [List.mem_cons, List.mem_singleton, not_or] at h
  obtain ⟨h1, h2, h3, h4, h5, -⟩ := h
  have hRC : layer_type_of args.layer = LayerType.RCNN := by
    rw [layer_type_of, if_neg h1, if_neg h2, if_neg h3, if_neg h4,
      if_neg h5]
  constructor
  · simp [set_layers]
  · intro i hi
    rw [set_layers, getD_map_range _ _ _ _ hi, hRC, build_feature_layer]

/-- Witness for C9 at a concrete unrecognized layer name. -/
theorem set_layers_rcnn_fallback_witness :
    (pyLower argsFoo.layer ∉
      (["lstm", "gru", "grnn", "cnn", "str_cnn"] : List String)) ∧
    (set_layers argsFoo 4 3).length = argsFoo.depth ∧
    (∀ i, i < argsFoo.depth →
      (set_layers argsFoo 4 3).getD i (LayerSpec.mkLSTM 0 0 "") =
        LayerSpec.mkRCNN (if i = 0 then 3 else 4) 4
          argsFoo.activation argsFoo.order argsFoo.mode argsFoo.outgate) :=
  ⟨by decide, set_layers_rcnn_fallback argsFoo 4 3 (by decide)⟩

/-! ## Checkpoint loading (C8) -/

/-- Position `i` of the positionally-overwritten layer list, when both
the layer list and the checkpoint parameter list reach `i`: the layer's
old name with the checkpoint's `i`-th parameter snapshot. -/
theorem zipset_getD_lt {P : Type} (dl : SMLayer P) (dp : P) :
    ∀ (layers : List (SMLayer P)) (ps : List P) (i : Nat),
      i < layers.length → i < ps.length →
      (List.zipWith (fun (l : SMLayer P) (p : P) => { l with params := p })
          layers ps ++ layers.drop ps.length).getD i dl
        = SMLayer.mk (layers.getD i dl).name (ps.getD i dp)
  | [], _, i => by intro h _; exact absurd h (by simp)
  | _ :: _, [], i => by intro _ h; exact absurd h (by simp)
  | l :: ls, p :: pr, 0 => by intro _ _; simp
  | l :: ls, p :: pr, i + 1 => by
      intro h1 h2
      have ih := zipset_getD_lt dl dp ls pr i (by simpa using h1)
        (by simpa using h2)
      simpa [List.drop_succ_cons] using ih

/-- Position `i` of the positionally-overwritten layer list beyond the
checkpoint's parameter list: the layer is unchanged. -/
theorem zipset_getD_ge {P : Type} (dl : SMLayer P) :
    ∀ (layers : List (SMLayer P)) (ps : List P) (i : Nat),
      ps.length ≤ i →
      (List.zipWith (fun (l : SMLayer P) (p : P) => { l with params := p })
          layers ps ++ layers.drop ps.length).getD i dl = layers.getD i dl
  | _, [], i => by intro _; simp
  | [], _ :: _, i => by intro _; simp
  | l :: ls, p :: pr, 0 => by intro h; exact absurd h (by simp)
  | l :: ls, p :: pr, i + 1 => by
      intro h
      simpa [List.drop_succ_cons] using
        zipset_getD_ge dl ls pr i (by simpa using h)

/-- C8: `load_pretrained_parameters` aborts (returning `none`, with no
layer touched) exactly when the configured `hidden_dim` differs from the
checkpoint's stored `d`; on success the result keeps the layer count,
overwrites the `i`-th layer's parameters with the `i`-th checkpoint
snapshot purely by position (names play no role and are preserved), and
leaves layers beyond the checkpoint's parameter list unchanged. -/
theorem load_pretrained_positional {A P : Type} (hd : Nat)
    (layers : List (SMLayer P)) (ck : Checkpoint A P)
    (dl : SMLayer P) (dp : P) :
    (hd ≠ ck.d → load_pretrained_parameters hd layers ck = none) ∧
    (hd = ck.d → ∀ res,
      load_pretrained_parameters hd layers ck = some res →
      res.length = layers.length ∧
      (∀ i, i < layers.length → i < ck.params.length →
        (res.getD i dl).params = ck.params.getD i dp ∧
        (res.getD i dl).name = (layers.getD i dl).name) ∧
      (∀ i, ck.params.length ≤ i → res.getD i dl = layers.getD i dl)) := by
  constructor
  · intro hne
    rw [load_pretrained_parameters, if_neg hne]
  · intro heq res hres
    rw [load_pretrained_parameters, if_pos heq, Option.some_inj] at hres
    subst hres
    refine ⟨?_, ?_, ?_⟩
    · simp only [List.length_append, List.length_zipWith, List.length_drop]
      omega
    · intro i hi1 hi2
      rw [zipset_getD_lt dl dp layers ck.params i hi1 hi2]
      exact ⟨rfl, rfl⟩
    · intro i hi
      exact zipset_getD_ge dl layers ck.params i hi

/-- Witness for C8 at a concrete mismatching and a concrete matching
load. -/
theorem load_pretrained_positional_witness :
    ((5 : Nat) ≠ ckptEx.d ∧
      load_pretrained_parameters 5 layersEx ckptEx = none) ∧
    ((4 : Nat) = ckptEx.d ∧
      ∀ res, load_pretrained_parameters 4 layersEx ckptEx = some res →
        res.length = layersEx.length ∧
        (∀ i, i < layersEx.length → i < ckptEx.params.length →
          (res.getD i dlEx).params = ckptEx.params.getD i [] ∧
          (res.getD i dlEx).name = (layersEx.getD i dlEx).name) ∧
        (∀ i, ckptEx.params.length ≤ i →
          res.getD i dlEx = layersEx.getD i dlEx)) :=
  ⟨⟨by decide,
    (load_pretrained_positional 5 layersEx ckptEx dlEx []).1 (by decide)⟩,
   ⟨rfl,
    (load_pretrained_positional 4 layersEx ckptEx dlEx []).2 rfl⟩⟩

/-! ## Save-path normalization (C4) -/

/-- C4 counterexample: a path ending in ".gz" alone does not get only the
missing ".pkl" half appended — `save_model` appends the full ".pkl.gz",
producing "x.gz.pkl.gz", which is neither "x.gz.pkl" (missing half
appended) nor "x.pkl.gz" (name completed to the canonical suffix). -/
theorem save_model_path_gz_counterexample :
    save_model_path ("x.gz".data) = ("x.gz.pkl.gz".data) ∧
    save_model_path ("x.gz".data) ≠ ("x.gz.pkl".data) ∧
    save_model_path ("x.gz".data) ≠ ("x.pkl.gz".data) := by
  decide

/-- C4 amended: the saved path always ends in ".pkl.gz"; a path already
ending in ".pkl.gz" is unchanged; a path ending in ".pkl" (but not
".pkl.gz") gets only ".gz" appended; every other path — including one
ending in ".gz" alone — gets the full ".pkl.gz" appended. -/
theorem save_model_path_normalizes (path : List Char) :
    dotPklGz.isSuffixOf (save_model_path path) = true ∧
    (dotPklGz.isSuffixOf path = true → save_model_path path = path) ∧
    (dotPklGz.isSuffixOf path = false → dotPkl.isSuffixOf path = true →
      save_model_path path = path ++ dotGz) ∧
    (dotPklGz.isSuffixOf path = false → dotPkl.isSuffixOf path = false →
      save_model_path path = path ++ dotPklGz) := by
  have hcat : dotPklGz = dotPkl ++ dotGz := by decide
  refine ⟨?_, ?_, ?_, ?_⟩
  · rw [save_model_path]
    by_cases h1 : dotPklGz.isSuffixOf path
    · rw [if_pos h1]; exact h1
    · rw [if_neg h1]
      by_cases h2 : dotPkl.isSuffixOf path
      · rw [if_pos h2]
        rw [List.isSuffixOf_iff_suffix] at h2 ⊢
        obtain ⟨t, ht⟩ := h2
        exact ⟨t, by rw [hcat, ← List.append_assoc, ht]⟩
      · rw [if_neg h2]
        rw [List.isSuffixOf_iff_suffix]
        exact List.suffix_append path dotPklGz
  · intro h
    rw [save_model_path, if_pos h]
  · intro h1 h2
    rw [save_model_path, if_neg (by simp [h1]), if_pos h2]
  · intro h1 h2
    rw [save_model_path, if_neg (by simp [h1]), if_neg (by simp [h2])]

/-- Witness for C4 (amended) at a path ending in ".pkl" alone. -/
theorem save_model_path_normalizes_witness :
    dotPklGz.isSuffixOf (save_model_path ("m.pkl".data)) = true ∧
    save_model_path ("m.pkl".data) = ("m.pkl".data) ++ dotGz :=
  ⟨(save_model_path_normalizes ("m.pkl".data)).1,
   (save_model_path_normalizes ("m.pkl".data)).2.2.1 (by decide) (by decide)⟩

/-! ## Cost and L2 regularization (C3) -/

/-- Folding the `set_cost` accumulator from an already-assigned value
adds the L2 norms of the remaining parameters. -/
theorem normAcc_foldl :
    ∀ (ps : List (List ℝ)) (s : ℝ),
      ps.foldl normAcc (some s) = some (s + (ps.map pnorm2).sum)
  | [], s => by simp
  | p :: pr, s => by
      rw [List.foldl_cons]
      have hstep : normAcc (some s) p = some (s + pnorm2 p) := rfl
      rw [hstep, normAcc_foldl pr (s + pnorm2 p)]
      rw [List.map_cons, List.sum_cons]
      rw [add_assoc]

/-- C3 counterexample: on an empty parameter list `set_cost` does not
return the loss — the accumulator is still `None` and the final
expression raises, so no value at all is returned (here, the claim at
`l2_reg = 0`, `loss = 5` would demand the result `5`). -/
theorem set_cost_empty_counterexample :
    set_cost argsCNNupper [] 5 = none ∧
    set_cost argsCNNupper [] 5 ≠ some 5 := by
  constructor
  · rfl
  · intro h
    rw [show set_cost argsCNNupper [] (5 : ℝ) = none from rfl] at h
    exact Option.noConfusion h

/-- C3 amended: for every NONEMPTY parameter list, `set_cost` returns
`loss + (Σ over parameters p of the L2 norm of p) * l2_reg` — the raw
norms `sqrt (Σ x²)`, not squared norms — and consequently when
`l2_reg = 0` the cost equals the loss exactly. -/
theorem set_cost_formula (args : Args) (params : List (List ℝ))
    (loss : ℝ) (hne : params ≠ []) :
    set_cost args params loss
      = some (loss + (params.map pnorm2).sum * (args.l2_reg : ℝ)) ∧
    (args.l2_reg = 0 → set_cost args params loss = some loss) := by
  obtain ⟨p, pr, rfl⟩ := List.exists_cons_of_ne_nil hne
  have hfold : (p :: pr).foldl normAcc none
      = some (pnorm2 p + (pr.map pnorm2).sum) := by
    rw [List.foldl_cons]
    have hstep : normAcc none p = some (pnorm2 p) := rfl
    rw [hstep, normAcc_foldl pr (pnorm2 p)]
  have hmain : set_cost args (p :: pr) loss
      = some (loss + ((p :: pr).map pnorm2).sum * (args.l2_reg : ℝ)) := by
    rw [set_cost, hfold, List.map_cons, List.sum_cons]
  refine ⟨hmain, fun hz => ?_⟩
  rw [hmain, hz]
  norm_num

/-- Witness for C3 (amended) at a concrete one-parameter list. -/
theorem set_cost_formula_witness :
    (([[3, 4]] : List (List ℝ)) ≠ []) ∧
    (set_cost argsCNNupper [[3, 4]] 1
        = some (1 + (([[3, 4]] : List (List ℝ)).map pnorm2).sum
            * ((argsCNNupper.l2_reg : ℚ) : ℝ)) ∧
      (argsCNNupper.l2_reg = 0 →
        set_cost argsCNNupper [[3, 4]] 1 = some 1)) :=
  ⟨List.cons_ne_nil _ _,
   set_cost_formula argsCNNupper [[3, 4]] 1 (List.cons_ne_nil _ _)⟩

/-! ## Pooling-branch case sensitivity (C1) -/

/-- C1 counterexample: with `average = false`, the configuration
`layer = "CNN"` pools by last time-step while `layer = "cnn"` pools by
non-pad mean, and on the two-word one-sentence input below the two
pooling results differ — the layer-name comparison in the pooling branch
of `_mid_layer` is case-sensitive, unlike layer construction. -/
theorem pool_case_counterexample :
    pool_h argsCNNupper [[[1]], [[3]]] [[1], [2]] 0
      = ([[[1]], [[3]]] : List (List (List ℚ))).getLastD [] ∧
    pool_h argsCNNupper [[[1]], [[3]]] [[1], [2]] 0 = [[3]] ∧
    pool_h argsCNNlower [[[1]], [[3]]] [[1], [2]] 0
      = average_without_padding [[[1]], [[3]]] [[1], [2]] 0 ∧
    pool_h argsCNNupper [[[1]], [[3]]] [[1], [2]] 0 ≠
      pool_h argsCNNlower [[[1]], [[3]]] [[1], [2]] 0 := by
  refine ⟨rfl, by decide, rfl, ?_⟩
  have hav : average_without_padding [[[1]], [[3]]] [[1], [2]] 0
      = [[4 / (2 + avgEps)]] := by
    simp [average_without_padding, maskedSumAt, nonPadCount, avgEps,
      show List.range 1 = [0] from rfl]
    norm_num
  have hu : pool_h argsCNNupper [[[1]], [[3]]] [[1], [2]] 0 = [[3]] := by
    decide
  have hl : pool_h argsCNNlower [[[1]], [[3]]] [[1], [2]] 0
      = average_without_padding [[[1]], [[3]]] [[1], [2]] 0 := rfl
  rw [hu, hl, hav]
  simp [avgEps]
  norm_num

/-- C1 amended: with `average = false`, mean-over-non-pad pooling is
selected only when the layer string is exactly "cnn" or "str_cnn"; any
other spelling (for instance "CNN"), even though it still denotes the
CNN or StrCNN layer type for construction (which lower-cases the name),
pools by the last time-step. -/
theorem pool_branch_case_sensitive (args : Args)
    (h : List (List (List ℚ))) (x : List (List Nat)) (pad_id : Nat)
    (havg : args.average = false)
    (hlt : pyLower args.layer = "cnn" ∨ pyLower args.layer = "str_cnn") :
    (layer_type_of args.layer = LayerType.CNN ∨
      layer_type_of args.layer = LayerType.StrCNN) ∧
    (args.layer = "cnn" ∨ args.layer = "str_cnn" →
      pool_h args h x pad_id = average_without_padding h x pad_id) ∧
    (args.layer ≠ "cnn" → args.layer ≠ "str_cnn" →
      pool_h args h x pad_id = h.getLastD []) := by
  refine ⟨?_, ?_, ?_⟩
  · rcases hlt with hl | hl
    · left
      rw [layer_type_of, hl]
      decide
    · right
      rw [layer_type_of, hl]
      decide
  · intro hcase
    rcases hcase with hc | hc <;> simp [pool_h, hc]
  · intro hne1 hne2
    simp [pool_h, havg, hne1, hne2]

/-- Witness for C1 (amended): the configuration `layer = "CNN"`,
`average = false` builds CNN layers yet pools by last time-step. -/
theorem pool_branch_case_sensitive_witness :
    (argsCNNupper.average = false ∧
      pyLower argsCNNupper.layer = "cnn") ∧
    layer_type_of argsCNNupper.layer = LayerType.CNN ∧
    pool_h argsCNNupper [[[1]], [[3]]] [[1], [2]] 0
      = ([[[1]], [[3]]] : List (List (List ℚ))).getLastD [] :=
  ⟨⟨rfl, by decide⟩,
   by
    have hmain := pool_branch_case_sensitive argsCNNupper
      [[[1]], [[3]]] [[1], [2]] 0 rfl (Or.inl (by decide))
    refine ⟨?_, ?_⟩
    · rcases hmain.1 with hc | hc
      · exact hc
      · exact absurd hc (by decide)
    · exact hmain.2.2 (by decide) (by decide)⟩

/-! ## Score head (C6, C7) -/

/-- The sigmoid at a zero pre-activation is exactly 1/2: a tied score. -/
theorem sigmoid_zero : sigmoid 0 = 1 / 2 := by
  rw [sigmoid, neg_zero, Real.exp_zero]
  norm_num

/-- The dot product of the score head is symmetric in its two rows. -/
theorem dotSum_comm (a b : List ℚ) : dotSum a b = dotSum b a := by
  rw [dotSum, dotSum]
  exact congrArg List.sum (List.zipWith_comm_of_comm _ mul_comm a b)

/-- C6: for a pooled representation with `2 * n` rows and a pair index
`i < n`, the score of pair `i` is the sigmoid of the sum over feature
dimensions of the elementwise product of rows `2i` and `2i + 1`; the row
indices of pair `i` never meet those of pair `i + 1`; the prediction is
a match exactly when the score is at least 0.5; and a pre-activation of
zero gives the tied score 0.5, which is classified as a match. -/
theorem output_layer_pairs (h : List (List ℚ)) (n i : Nat)
    (hlen : h.length = 2 * n) (hi : i < n) :
    y_scores h i
      = sigmoid ((dotSum (h.getD (2 * i) []) (h.getD (2 * i + 1) []) : ℚ) : ℝ) ∧
    sent1row h i = h.getD (2 * i) [] ∧
    sent2row h i = h.getD (2 * i + 1) [] ∧
    (i * 2 ≠ (i + 1) * 2 ∧ i * 2 ≠ (i + 2) * 2 - 1 ∧
      (i + 1) * 2 - 1 ≠ (i + 1) * 2 ∧ (i + 1) * 2 - 1 ≠ (i + 2) * 2 - 1) ∧
    (y_pred h i ↔ (1 / 2 : ℝ) ≤ y_scores h i) ∧
    (scorePre h i = 0 → y_scores h i = 1 / 2 ∧ y_pred h i) := by
  have e1 : i * 2 = 2 * i := by omega
  have e2 : (i + 1) * 2 - 1 = 2 * i + 1 := by omega
  have hrow1 : sent1row h i = h.getD (2 * i) [] := by rw [sent1row, e1]
  have hrow2 : sent2row h i = h.getD (2 * i + 1) [] := by rw [sent2row, e2]
  refine ⟨?_, hrow1, hrow2, by omega, Iff.rfl, ?_⟩
  · rw [y_scores, scorePre, hrow1, hrow2]
  · intro h0
    have hs : y_scores h i = 1 / 2 := by
      rw [y_scores, h0]
      simpa using sigmoid_zero
    exact ⟨hs, by rw [y_pred, hs]⟩

/-- Witness for C6 on a concrete two-row (one-pair) representation. -/
theorem output_layer_pairs_witness :
    (([[1], [2]] : List (List ℚ)).length = 2 * 1 ∧ 0 < 1) ∧
    (y_scores [[1], [2]] 0
      = sigmoid ((dotSum (([[1], [2]] : List (List ℚ)).getD (2 * 0) [])
          (([[1], [2]] : List (List ℚ)).getD (2 * 0 + 1) []) : ℚ) : ℝ) ∧
    sent1row [[1], [2]] 0 = ([[1], [2]] : List (List ℚ)).getD (2 * 0) [] ∧
    sent2row [[1], [2]] 0 = ([[1], [2]] : List (List ℚ)).getD (2 * 0 + 1) [] ∧
    (0 * 2 ≠ (0 + 1) * 2 ∧ 0 * 2 ≠ (0 + 2) * 2 - 1 ∧
      (0 + 1) * 2 - 1 ≠ (0 + 1) * 2 ∧ (0 + 1) * 2 - 1 ≠ (0 + 2) * 2 - 1) ∧
    (y_pred [[1], [2]] 0 ↔ (1 / 2 : ℝ) ≤ y_scores [[1], [2]] 0) ∧
    (scorePre [[1], [2]] 0 = 0 →
      y_scores [[1], [2]] 0 = 1 / 2 ∧ y_pred [[1], [2]] 0)) :=
  ⟨⟨rfl, by decide⟩, output_layer_pairs [[1], [2]] 1 0 rfl (by decide)⟩

/-- Reading the swapped pair's first row: originally row
`(i + 1) * 2 - 1`. -/
theorem getD_swapPair_fst (h : List (List ℚ)) (i : Nat)
    (hlt : i * 2 < h.length) :
    (swapPairRows h i).getD (i * 2) [] = sent2row h i := by
  have hne : (i + 1) * 2 - 1 ≠ i * 2 := by omega
  rw [swapPairRows, List.getD_eq_getElem?_getD, List.getElem?_set_ne hne,
    List.getElem?_set_self (by simpa using hlt)]
  rfl

/-- Reading the swapped pair's second row: originally row `i * 2`. -/
theorem getD_swapPair_snd (h : List (List ℚ)) (i : Nat)
    (hlt : (i + 1) * 2 - 1 < h.length) :
    (swapPairRows h i).getD ((i + 1) * 2 - 1) [] = sent1row h i := by
  rw [swapPairRows, List.getD_eq_getElem?_getD,
    List.getElem?_set_self (by simpa using hlt)]
  rfl

/-- Rows other than the two swapped ones are untouched. -/
theorem getD_swapPair_ne (h : List (List ℚ)) (i m : Nat)
    (h1 : m ≠ i * 2) (h2 : m ≠ (i + 1) * 2 - 1) :
    (swapPairRows h i).getD m [] = h.getD m [] := by
  rw [swapPairRows, List.getD_eq_getElem?_getD,
    List.getElem?_set_ne (Ne.symm h2), List.getElem?_set_ne (Ne.symm h1),
    ← List.getD_eq_getElem?_getD]

/-- C7: exchanging the two sentence rows of pair `i` changes no pair's
score — pair `i`'s by commutativity of the dot product, every other
pair's because its rows are disjoint from pair `i`'s. -/
theorem swap_pair_scores (h : List (List ℚ)) (n i j : Nat)
    (hlen : h.length = 2 * n) (hi : i < n) :
    y_scores (swapPairRows h i) j = y_scores h j := by
  by_cases hj : j = i
  · subst hj
    have e1 : sent1row (swapPairRows h j) j = sent2row h j := by
      rw [sent1row]
      exact getD_swapPair_fst h j (by omega)
    have e2 : sent2row (swapPairRows h j) j = sent1row h j := by
      rw [sent2row]
      exact getD_swapPair_snd h j (by omega)
    rw [y_scores, y_scores, scorePre, scorePre, e1, e2, dotSum_comm]
  · have e1 : sent1row (swapPairRows h i) j = sent1row h j := by
      rw [sent1row, sent1row]
      exact getD_swapPair_ne h i (j * 2) (by omega) (by omega)
    have e2 : sent2row (swapPairRows h i) j = sent2row h j := by
      rw [sent2row, sent2row]
      exact getD_swapPair_ne h i ((j + 1) * 2 - 1) (by omega) (by omega)
    rw [y_scores, y_scores, scorePre, scorePre, e1, e2]

/-- Witness for C7 on a concrete one-pair representation. -/
theorem swap_pair_scores_witness :
    (([[1], [2]] : List (List ℚ)).length = 2 * 1 ∧ 0 < 1) ∧
    y_scores (swapPairRows [[1], [2]] 0) 0 = y_scores [[1], [2]] 0 :=
  ⟨⟨rfl, by decide⟩, swap_pair_scores [[1], [2]] 1 0 0 rfl (by decide)⟩

/-! ## Training loop (C2, C5, C10) -/

/-- A run whose steps all return numeric losses never fires the NaN
guard. -/
theorem runSteps_no_nan (loss : Nat → Flt) :
    ∀ (l : List Nat) (i : Nat), (∀ j ∈ l, loss j ≠ Flt.nan) →
      (runSteps loss l i).2 = none := by
  intro l
  induction l with
  | nil => intro i _; rfl
  | cons idx rest ih =>
      intro i hl
      rcases hx : loss idx with _ | q
      · exact absurd hx (hl idx (List.mem_cons_self idx rest))
      · simp only [runSteps, hx]
        exact ih (i + 1) (fun j hj => hl j (List.mem_cons_of_mem idx hj))

/-- When the first NaN loss occurs at position `pre.length` of the epoch
order, exactly the steps with counters `i, …, i + pre.length` are
invoked, and the guard fires at counter `i + pre.length`. -/
theorem runSteps_first_nan (loss : Nat → Flt) :
    ∀ (pre : List Nat) (a : Nat) (rest : List Nat) (i : Nat),
      (∀ j ∈ pre, loss j ≠ Flt.nan) → loss a = Flt.nan →
      runSteps loss (pre ++ a :: rest) i
        = (List.range' i (pre.length + 1), some (i + pre.length)) := by
  intro pre
  induction pre with
  | nil =>
      intro a rest i _ ha
      simp only [List.nil_append, List.length_nil]
      simp [runSteps, ha, List.range'_one]
  | cons p pr ih =>
      intro a rest i hpre ha
      rcases hx : loss p with _ | q
      · exact absurd hx (hpre p (List.mem_cons_self p pr))
      · simp only [List.cons_append, runSteps, hx, List.append_eq]
        rw [ih a rest (i + 1)
          (fun j hj => hpre j (List.mem_cons_of_mem p hj)) ha]
        simp only [Prod.mk.injEq, List.length_cons, Option.some.injEq]
        constructor
        · simp [List.range'_succ]
        · omega

/-- From any loop state with NaN-free steps whose dev accuracy never
exceeds the running best, the loop runs exactly until the stagnation
counter passes 15 (or the remaining epoch budget is exhausted). -/
theorem trainAux_stagnant (losses : Nat → Nat → Flt)
    (order : Nat → List Nat) (f : Nat → ℚ) (b : ℚ)
    (hnan : ∀ e j, losses e j ≠ Flt.nan) :
    ∀ (r e u : Nat) (dvar : Option ℚ), (∀ k, e ≤ k → ¬ b < f k) →
      trainAux losses order (some f) r e u b dvar
        = TrainOutcome.finished (e + min r (15 - u)) := by
  intro r
  induction r with
  | zero => intro e u dvar _; simp [trainAux]
  | succ r ih =>
      intro e u dvar hno
      have h2 : (runSteps (losses e) (order e) 0).2 = none :=
        runSteps_no_nan (losses e) (order e) 0 (fun j _ => hnan e j)
      by_cases hu : 15 < u + 1
      · rw [trainAux, if_pos hu]
        have hmin : e + min (r + 1) (15 - u) = e := by omega
        rw [hmin]
      · rw [trainAux, if_neg hu, h2]
        rw [show devAccAfter (some f) e dvar = some (f e) from rfl]
        show (if b < f e then _ else _) = _
        rw [if_neg (hno e (Nat.le_refl e))]
        rw [ih (e + 1) (u + 1) (some (f e)) (fun k hk => hno k (by omega))]
        have hmin : e + 1 + min r (15 - (u + 1))
            = e + min (r + 1) (15 - u) := by omega
        rw [hmin]

/-- With dev samples supplied, every run either finishes within the
epoch budget or ends in a NaN abort whose message carries the failing
counter — there is no other way out of the loop. -/
theorem trainAux_shape (losses : Nat → Nat → Flt)
    (order : Nat → List Nat) (f : Nat → ℚ) :
    ∀ (r e u : Nat) (b : ℚ) (dvar : Option ℚ),
      (∃ k, trainAux losses order (some f) r e u b dvar
          = TrainOutcome.finished k ∧ k ≤ e + r) ∨
      (∃ ep i, trainAux losses order (some f) r e u b dvar
          = TrainOutcome.nanAbort ep i (nanMessage i)) := by
  intro r
  induction r with
  | zero => intro e u b dvar; exact Or.inl ⟨e, rfl, by omega⟩
  | succ r ih =>
      intro e u b dvar
      by_cases hu : 15 < u + 1
      · exact Or.inl ⟨e, by rw [trainAux, if_pos hu], by omega⟩
      · rcases h2 : (runSteps (losses e) (order e) 0).2 with _ | i
        · have hred : trainAux losses order (some f) (r + 1) e u b dvar
              = if b < f e then
                  trainAux losses order (some f) r (e + 1) 0 (f e)
                    (some (f e))
                else
                  trainAux losses order (some f) r (e + 1) (u + 1) b
                    (some (f e)) := by
            rw [trainAux, if_neg hu, h2]
            rw [show devAccAfter (some f) e dvar = some (f e) from rfl]
          rw [hred]
          by_cases hb : b < f e
          · rw [if_pos hb]
            rcases ih (e + 1) 0 (f e) (some (f e)) with ⟨k, hk, hle⟩ | h
            · exact Or.inl ⟨k, hk, by omega⟩
            · exact Or.inr h
          · rw [if_neg hb]
            rcases ih (e + 1) (u + 1) b (some (f e)) with ⟨k, hk, hle⟩ | h
            · exact Or.inl ⟨k, hk, by omega⟩
            · exact Or.inr h
        · exact Or.inr ⟨e, i, by rw [trainAux, if_neg hu, h2]⟩

/-- C2: with dev samples supplied, NaN-free steps, a dev accuracy that
strictly improves at epoch 0 (above the initial best of -1) and never
exceeds that value afterwards, training halts at exactly epoch 16
(epochs 0–15 run their training pass, epoch 16 breaks before training)
for every `max_epoch > 16`; and in general (second conjunct) a run with
dev samples either finishes within its epoch budget or ends in the NaN
abort — those are the only terminations. -/
theorem train_early_stop (maxEpoch : Nat) (losses : Nat → Nat → Flt)
    (order : Nat → List Nat) (f : Nat → ℚ)
    (M : Nat) (L : Nat → Nat → Flt) (O : Nat → List Nat) (g : Nat → ℚ)
    (hM : 16 < maxEpoch) (hnan : ∀ e j, losses e j ≠ Flt.nan)
    (hOrder : ∀ e, order e ≠ []) (h0 : (-1 : ℚ) < f 0)
    (hlater : ∀ k, 1 ≤ k → f k ≤ f 0) (hO : ∀ e, O e ≠ []) :
    train maxEpoch losses order (some f) = TrainOutcome.finished 16 ∧
    ((∃ k, train M L O (some g) = TrainOutcome.finished k ∧ k ≤ M) ∨
      (∃ ep i, train M L O (some g)
        = TrainOutcome.nanAbort ep i (nanMessage i))) := by
  constructor
  · obtain ⟨r, rfl⟩ : ∃ r, maxEpoch = r + 1 := ⟨maxEpoch - 1, by omega⟩
    have h2 : (runSteps (losses 0) (order 0) 0).2 = none :=
      runSteps_no_nan (losses 0) (order 0) 0 (fun j _ => hnan 0 j)
    rw [train, trainAux, if_neg (by omega), h2]
    rw [show devAccAfter (some f) 0 none = some (f 0) from rfl]
    show (if (-1 : ℚ) < f 0 then _ else _) = _
    rw [if_pos h0]
    rw [trainAux_stagnant losses order f (f 0) hnan r 1 0 (some (f 0))
      (fun k hk => not_lt.mpr (hlater k hk))]
    have : 1 + min r (15 - 0) = 16 := by omega
    rw [this]
  · rcases trainAux_shape L O g M 0 0 (-1) none with ⟨k, hk, hle⟩ | ⟨ep, i, h⟩
    · exact Or.inl ⟨k, by rw [train]; exact hk, by omega⟩
    · exact Or.inr ⟨ep, i, by rw [train]; exact h⟩

/-- Witness for C2: 17 epochs, constant numeric losses, dev accuracy
`1 - e` that peaks at epoch 0. -/
theorem train_early_stop_witness :
    train 17 (fun _ _ => Flt.num 0) (fun _ => [0])
        (some fun e => 1 - (e : ℚ)) = TrainOutcome.finished 16 ∧
    ((∃ k, train 1 (fun _ _ => Flt.num 0) (fun _ => [0])
          (some fun _ => (1 : ℚ)) = TrainOutcome.finished k ∧ k ≤ 1) ∨
      (∃ ep i, train 1 (fun _ _ => Flt.num 0) (fun _ => [0])
          (some fun _ => (1 : ℚ))
        = TrainOutcome.nanAbort ep i (nanMessage i))) :=
  train_early_stop 17 (fun _ _ => Flt.num 0) (fun _ => [0])
    (fun e => 1 - (e : ℚ)) 1 (fun _ _ => Flt.num 0) (fun _ => [0])
    (fun _ => (1 : ℚ)) (by norm_num) (fun _ _ h => Flt.noConfusion h)
    (fun _ => List.cons_ne_nil 0 [])
    (by norm_num)
    (fun k hk => by
      have hc : (1 : ℚ) ≤ (k : ℚ) := by exact_mod_cast hk
      show 1 - (k : ℚ) ≤ 1 - ((0 : Nat) : ℚ)
      push_cast
      linarith)
    (fun _ => List.cons_ne_nil 0 [])

/-- C5: from any live loop state (budget left, stagnation break not
due), if the epoch's shuffled order has NaN-free losses up to position
`pre.length` and a NaN loss there, the run ends at once in the NaN
abort for that position: only counters `0 … pre.length` are invoked (no
subsequent sample's step runs, no later epoch starts), and the emitted
diagnostic carries the failing counter. -/
theorem train_nan_guard (losses : Nat → Nat → Flt)
    (order : Nat → List Nat) (devSamples : Option (Nat → ℚ))
    (r e u : Nat) (b : ℚ) (dvar : Option ℚ)
    (pre : List Nat) (a : Nat) (rest : List Nat)
    (hr : 1 ≤ r) (hu : ¬ 15 < u + 1)
    (horder : order e = pre ++ a :: rest)
    (hpre : ∀ j ∈ pre, losses e j ≠ Flt.nan)
    (ha : losses e a = Flt.nan) :
    trainAux losses order devSamples r e u b dvar
      = TrainOutcome.nanAbort e pre.length (nanMessage pre.length) ∧
    runSteps (losses e) (order e) 0
      = (List.range (pre.length + 1), some pre.length) ∧
    nanMessage pre.length
      = "\n\nNAN: Index: " ++ toString pre.length ++ "\n" := by
  have hrun : runSteps (losses e) (order e) 0
      = (List.range' 0 (pre.length + 1), some (0 + pre.length)) := by
    rw [horder]
    exact runSteps_first_nan (losses e) pre a rest 0 hpre ha
  have hrun2 : runSteps (losses e) (order e) 0
      = (List.range (pre.length + 1), some pre.length) := by
    rw [hrun, List.range_eq_range']
    simp
  obtain ⟨s, rfl⟩ : ∃ s, r = s + 1 := ⟨r - 1, by omega⟩
  refine ⟨?_, hrun2, rfl⟩
  rw [trainAux, if_neg hu,
    show (runSteps (losses e) (order e) 0).2 = some pre.length from
      by rw [hrun2]]

/-- Witness for C5: the second sample of epoch 0 returns NaN. -/
theorem train_nan_guard_witness :
    trainAux (fun _ j => if j = 8 then Flt.nan else Flt.num 0)
        (fun _ => [7, 8, 9]) none 5 0 0 (-1) none
      = TrainOutcome.nanAbort 0 ([7] : List Nat).length
          (nanMessage ([7] : List Nat).length) ∧
    runSteps ((fun _ j => if j = 8 then Flt.nan else Flt.num 0) 0)
        ((fun _ => [7, 8, 9]) 0) 0
      = (List.range (([7] : List Nat).length + 1),
          some ([7] : List Nat).length) ∧
    nanMessage ([7] : List Nat).length
      = "\n\nNAN: Index: " ++ toString ([7] : List Nat).length ++ "\n" :=
  train_nan_guard (fun _ j => if j = 8 then Flt.nan else Flt.num 0)
    (fun _ => [7, 8, 9]) none 5 0 0 (-1) none [7] 8 [9]
    (by norm_num) (by norm_num) rfl
    (by intro j hj; simp only [List.mem_singleton] at hj; subst hj; decide)
    (by decide)

/-- C10: with `dev_samples` left at its default `None`, the first
epoch's end-of-epoch phase hits the comparison `dev_acc > best_acc`
with `dev_acc` never assigned — an undefined-variable error — as soon
as the training pass itself completes (NaN-free losses, at least one
epoch requested): a non-None dev sample set is a precondition for
`train` to complete even one epoch. -/
theorem train_requires_dev (maxEpoch : Nat) (losses : Nat → Nat → Flt)
    (order : Nat → List Nat) (hM : 1 ≤ maxEpoch)
    (hnan : ∀ j ∈ order 0, losses 0 j ≠ Flt.nan) :
    train maxEpoch losses order none = TrainOutcome.nameError 0 := by
  obtain ⟨r, rfl⟩ : ∃ r, maxEpoch = r + 1 := ⟨maxEpoch - 1, by omega⟩
  have h2 : (runSteps (losses 0) (order 0) 0).2 = none :=
    runSteps_no_nan (losses 0) (order 0) 0 hnan
  rw [train, trainAux, if_neg (by omega), h2]
  rfl

/-- Witness for C10: one epoch, one sample, numeric loss, no dev set. -/
theorem train_requires_dev_witness :
    train 1 (fun _ _ => Flt.num 0) (fun _ => [0]) none
      = TrainOutcome.nameError 0 :=
  train_requires_dev 1 (fun _ _ => Flt.num 0) (fun _ => [0])
    (Nat.le_refl 1) (fun _ _ h => Flt.noConfusion h)

end SentMatching
